import Mathlib

/-!
Verification development for `telepresence/main.py` (connection orchestration
and subprocess supervision subsystem).

Python machine strings are modelled as `List Char`; Python dicts (which keep
insertion order, replace the value in place on assignment to an existing key,
and append new keys at the end) are modelled as association lists manipulated
only through `updateAssoc` / `lookupAssoc` / `delKey`.  Fallible code returns
`Option` / `Except`.  Subprocess spawns, one-shot commands and prints are
recorded as an explicit event trace; results of external collaborators
(`which`, `runner.get_output`, `ssh.wait`, the env-dump attempts, ...) are
inputs of the model, supplied through configuration records.
-/

namespace Telepresence

/-- Python `str` values are modelled as lists of unicode characters. -/
abbrev Str := List Char

/-- Characters that Python `str.splitlines` treats as line boundaries
(besides the two-character boundary `\r\n`, handled in `splitlines`). -/
def isLineBreak (c : Char) : Bool :=
  c == '\n' || c == '\r' || c == '\x0b' || c == '\x0c' ||
  c == '\x1c' || c == '\x1d' || c == '\x1e' || c == '\x85' ||
  c == '\u2028' || c == '\u2029'

/-- Python `str.splitlines`: split at every line boundary (treating `\r\n` as
one boundary); a trailing boundary does not produce a final empty line. -/
def splitlines : Str → List Str
  | [] => []
  | '\r' :: '\n' :: s => [] :: splitlines s
  | c :: s =>
    if isLineBreak c then
      [] :: splitlines s
    else
      match splitlines s with
      | [] => [[c]]
      | l :: ls => (c :: l) :: ls

/-- Split a string at the first `=`, as Python `line.split("=", 1)` does:
`none` when the line holds no `=` (the `ValueError` case of the unpacking
`key, value = line.split("=", 1)`), otherwise the parts before and after
the first `=`. -/
def splitFirstEq : Str → Option (Str × Str)
  | [] => none
  | c :: s =>
    if c = '=' then some ([], s)
    else
      match splitFirstEq s with
      | none => none
      | some (k, v) => some (c :: k, v)

/-- Python dict assignment `m[k] = v`: replace the value in place when the key
is present (first occurrence; dicts never hold a key twice), append the new
entry at the end otherwise. -/
def updateAssoc : List (Str × Str) → Str → Str → List (Str × Str)
  | [], k, v => [(k, v)]
  | (k1, v1) :: rest, k, v =>
    if k1 = k then (k, v) :: rest else (k1, v1) :: updateAssoc rest k v

/-- Python dict lookup `m[k]` / `k in m`: value of the first entry with the
given key, if any. -/
def lookupAssoc : List (Str × Str) → Str → Option Str
  | [], _ => none
  | (k1, v1) :: rest, k => if k1 = k then some v1 else lookupAssoc rest k

/-- Python `del m[k]` (after an `if k in m` guard making the absent case a
no-op): drop the first entry with the given key. -/
def delKey : List (Str × Str) → Str → List (Str × Str)
  | [], _ => []
  | (k1, v1) :: rest, k => if k1 = k then rest else (k1, v1) :: delKey rest k

/-- Fold a list of entries into a dict with Python dict-update semantics
(`result.update(remote_env)` runs exactly these assignments in order). -/
def updateAll : List (Str × Str) → List (Str × Str) → List (Str × Str)
  | m, [] => m
  | m, kv :: rest => updateAll (updateAssoc m kv.1 kv.2) rest

/-- Loop body of `_get_remote_env`: fold over the lines of the dump carrying
the accumulated dict and `prior_key`.  A line with `=` starts a new key; a
line without `=` requires a prior key (`assert prior_key is not None`:
`none` models the `AssertionError` raised when there is none) and appends
the line, preceded by a newline, to that key's current value. -/
def parseLinesAux : List (Str × Str) → Option Str → List Str → Option (List (Str × Str))
  | m, _, [] => some m
  | m, prior, line :: rest =>
    match splitFirstEq line with
    | some (k, v) => parseLinesAux (updateAssoc m k v) (some k) rest
    | none =>
      match prior with
      | none => none
      | some k =>
        match lookupAssoc m k with
        | none => none
        | some old => parseLinesAux (updateAssoc m k (old ++ '\n' :: line)) (some k) rest

/-- `_get_remote_env` of `telepresence/main.py`, applied to the text of the
remote `env` dump (the `kubectl exec ... env` output is an input here). -/
def _get_remote_env (envText : Str) : Option (List (Str × Str)) :=
  parseLinesAux [] none (splitlines envText)

/-- Join continuation lines: each one is preceded by a newline. -/
def joinC : List Str → Str
  | [] => []
  | c :: cs => '\n' :: (c ++ joinC cs)

/-- Modelled from the spec: the remote-environment parse described by its
words — each line containing `=` starts a new key (splitting on the first
`=`); the maximal run of following lines not containing `=` is appended,
each preceded by a newline, to that key's value.  A leading line without
`=` has no most recently seen key, so no mapping is produced.  Produces the
blocks in text order. -/
def specBlocks : List Str → Option (List (Str × Str))
  | [] => some []
  | line :: rest =>
    match splitFirstEq line with
    | none => none
    | some (k, v0) =>
      match specBlocks (rest.dropWhile (fun l => !(l.contains '='))) with
      | none => none
      | some blocks =>
        some ((k, v0 ++ joinC (rest.takeWhile (fun l => !(l.contains '=')))) :: blocks)
termination_by ls => ls.length
decreasing_by
  simp only [List.length_cons]
  exact Nat.lt_succ_of_le ((List.dropWhile_sublist _).length_le)

/-- Modelled from the spec: full spec-side parse — split the dump into lines,
group them into key blocks, and build the mapping from the blocks with dict
semantics. -/
def parseRemoteEnvSpec (text : Str) : Option (List (Str × Str)) :=
  (specBlocks (splitlines text)).map (updateAll [])

/-- Serialize a parsed environment mapping back to `KEY=value` lines, each
line terminated by a newline — the format the remote `env` dump itself uses
(values may contain embedded newlines, which become continuation lines). -/
def serializeEnv : List (Str × Str) → Str
  | [] => []
  | (k, v) :: rest => k ++ '=' :: (v ++ '\n' :: serializeEnv rest)

/-- A string free of line-boundary characters (one line of a split text). -/
def NoBreak (l : Str) : Prop := ∀ c ∈ l, isLineBreak c = false

/-- Shape of every value the parser can produce: a first segment coming from
the `KEY=value` split, followed by newline-preceded continuation segments,
all boundary-free and the continuations free of `=`. -/
def GoodVal (v : Str) : Prop :=
  ∃ v0 conts, v = v0 ++ joinC conts ∧ NoBreak v0 ∧
    ∀ c ∈ conts, NoBreak c ∧ ('=' ∉ c)

/-- Invariant of every mapping the parser can produce: keys are boundary-free
and `=`-free and occur once; values have the `GoodVal` shape. -/
def GoodMap (m : List (Str × Str)) : Prop :=
  (∀ kv ∈ m, ('=' ∉ kv.1) ∧ NoBreak kv.1 ∧ GoodVal kv.2) ∧
    (m.map Prod.fst).Nodup

/-- `get_env_variables` of `telepresence/main.py`, parameterised by the raw
remote environment mapping (the result of `_get_remote_env`) and by the
pod / container names of the `RemoteInfo`: build the two synthetic
`TELEPRESENCE_*` entries, delete `HOME`, `PATH` and `HOSTNAME` from the
remote mapping, then `result.update(remote_env)`. -/
def get_env_variables (podName containerName : Str) (remoteEnv : List (Str × Str)) :
    List (Str × Str) :=
  let result := [("TELEPRESENCE_POD".toList, podName),
                 ("TELEPRESENCE_CONTAINER".toList, containerName)]
  let cleaned := delKey (delKey (delKey remoteEnv "HOME".toList) "PATH".toList)
      "HOSTNAME".toList
  updateAll result cleaned

/-- Decimal rendering of a port number, as Python `format` renders an int. -/
def natStr (n : Nat) : Str := (Nat.repr n).toList

/-- One `-R` reverse-forward spec,
`"*:" + remote_port + ":127.0.0.1:" + local_port`. -/
def reverseForwardSpec (localPort remotePort : Nat) : Str :=
  '*' :: ':' :: (natStr remotePort ++ ":127.0.0.1:".toList ++ natStr localPort)

/-- Observable outcome of `expose_local_services`: the advisory and per-port
messages printed to the terminal, the accumulated `-R` argument vector, and
the extra SSH child processes spawned (at most one, carrying that vector). -/
structure ExposeResult where
  advisory : Bool
  forwardMsgCount : Nat
  blankLine : Bool
  remoteForwardArgs : List Str
  spawnedSsh : List (List Str)
  deriving DecidableEq

/-- `expose_local_services` of `telepresence/main.py`, parameterised by
`sys.stderr.isatty()` and the `(local port, remote port)` pairs: print the
advisory when the list is empty and output is a terminal, build two `-R`
arguments per pair, and spawn one extra SSH invocation only when the
argument vector is non-empty.  The function has no failure path. -/
def expose_local_services (isTty : Bool) (portNumbers : List (Nat × Nat)) :
    ExposeResult :=
  let args := portNumbers.foldr
    (fun lr acc => "-R".toList :: reverseForwardSpec lr.1 lr.2 :: acc) []
  { advisory := portNumbers.isEmpty && isTty
    forwardMsgCount := if isTty then portNumbers.length else 0
    blankLine := isTty
    remoteForwardArgs := args
    spawnedSsh := if args.isEmpty then [] else [args] }

/-- Proxy methods accepted by the command line. -/
inductive Method
  | container
  | vpnTcp
  | injectTcp
  deriving DecidableEq

/-- Platform families distinguished by `sys.platform == "linux"`. -/
inductive Platform
  | linux
  | mac
  deriving DecidableEq

/-- Observable actions of the orchestration code, in program order: child
process spawns, one-shot command invocations, waits and prints. -/
inductive Event
  | analyzeKube
  | callScout
  | runMinishiftIp
  | kubectlConnectivityCheck
  | sshVersionCheck
  | requireTorsocks
  | requireSshfs
  | requireConntrack
  | createNewDeployment
  | swapDeployment
  | getRemoteInfo
  | spawnLogTail
  | spawnPortForward
  | runIpAddr
  | runIfconfig
  | sudoAliasAdd
  | registerAliasCleanup
  | spawnSocat
  | sshWait (ok : Bool)
  | printAdvisory
  | spawnReverseForward (args : List Str)
  | spawnSocksTunnel
  | launchUser
  deriving DecidableEq

/-- Failure outcomes of the orchestration code. -/
inductive Err
  | systemExit (msg : Str)
  | systemExitCode (code : Nat)
  | timeoutErr
  | unboundLocalErr
  deriving DecidableEq

/-- Message of the `SystemExit` raised when neither interface tool exists. -/
def ipToolsMissingMsg : Str := "\x27ip addr\x27 nor \x27ifconfig\x27 available".toList

/-- Message of the `SystemExit` raised when no IPv4 address was parsed. -/
def noDockerInterfaceMsg : Str := "No interface for docker found".toList

/-- Message of the `SystemExit` raised for sub-1024 ports on OpenShift. -/
def openshiftPortsMsg : Str := "OpenShift does not support ports <1024.".toList

/-- Message of the `SystemExit` raised for vpn-tcp on a local VM with a plain
`--deployment`. -/
def vpnLocalVmMsg : Str :=
  ("vpn-tcp method doesn\x27t work with minikube/minishift when using" ++
   " --deployment. Use --swap-deployment or --new-deployment instead.").toList

/-- Message of the `SystemExit` raised when `ssh` is not OpenSSH. -/
def sshNotOpenSshMsg : Str :=
  "\x27ssh\x27 is not the OpenSSH client, apparently.".toList

/-- Match `\d+\.\d+\.\d+\.\d+` at the start of the string: four non-empty
greedy digit runs separated by dots.  Returns the matched text and the rest
of the string.  Greediness needs no backtracking since a digit is never a
dot. -/
def matchIPv4 (s : Str) : Option (Str × Str) :=
  let d1 := s.takeWhile Char.isDigit
  if d1.isEmpty then none else
  match s.dropWhile Char.isDigit with
  | [] => none
  | c1 :: s2 =>
    if c1 = '.' then
      let d2 := s2.takeWhile Char.isDigit
      if d2.isEmpty then none else
      match s2.dropWhile Char.isDigit with
      | [] => none
      | c2 :: s3 =>
        if c2 = '.' then
          let d3 := s3.takeWhile Char.isDigit
          if d3.isEmpty then none else
          match s3.dropWhile Char.isDigit with
          | [] => none
          | c3 :: s4 =>
            if c3 = '.' then
              let d4 := s4.takeWhile Char.isDigit
              if d4.isEmpty then none else
              some (d1 ++ '.' :: d2 ++ '.' :: d3 ++ '.' :: d4,
                s4.dropWhile Char.isDigit)
            else none
        else none
    else none

/-- Scanner for `re.findall(r"(\d+\.\d+\.\d+\.\d+)", out)`: try a match at
each position, left to right; after a match continue right after it.  The
fuel argument bounds the recursion and is adequate whenever it is at least
the length of the string (each step consumes at least one character). -/
def findIPv4Aux : Nat → Str → List Str
  | 0, _ => []
  | Nat.succ fuel, s =>
    match s with
    | [] => []
    | c :: s1 =>
      match matchIPv4 (c :: s1) with
      | some (m, rest) => m :: findIPv4Aux fuel rest
      | none => findIPv4Aux fuel s1

/-- All IPv4-shaped substrings of an interface-listing output, in text order,
as `re.findall(r"(\d+\.\d+\.\d+\.\d+)", out)` produces them. -/
def findIPv4 (s : Str) : List Str := findIPv4Aux s.length s

/-- Configuration and collaborator results consumed by `connect`: the chosen
method, the platform family, availability (`shutil.which`) and output
(`runner.get_output`) of the two interface tools, the outcome of
`ssh.wait()`, the `--expose` port pairs and `sys.stderr.isatty()`. -/
structure ConnectCfg where
  method : Method
  platform : Platform
  ipAvail : Bool
  ifconfigAvail : Bool
  ipAddrOut : Str
  ifconfigOut : Str
  sshWaitOk : Bool
  exposePorts : List (Nat × Nat)
  isTty : Bool

/-- Docker-bridge setup of `connect` for `--method container` (a no-op for
the other methods): on Linux, consult `ip addr` when `ip` exists, else
`ifconfig` when it exists, else exit fatally; exit fatally when the
consulted output yields no IPv4 address; otherwise relay via `socat`.  On
the other platform family, alias the loopback device (scheduling removal at
exit) and relay via `socat`. -/
def bridgeStep (cfg : ConnectCfg) : List Event × Except Err Unit :=
  match cfg.method with
  | Method.container =>
    match cfg.platform with
    | Platform.linux =>
      if cfg.ipAvail then
        if (findIPv4 cfg.ipAddrOut).isEmpty then
          ([Event.runIpAddr], Except.error (Err.systemExit noDockerInterfaceMsg))
        else ([Event.runIpAddr, Event.spawnSocat], Except.ok ())
      else if cfg.ifconfigAvail then
        if (findIPv4 cfg.ifconfigOut).isEmpty then
          ([Event.runIfconfig], Except.error (Err.systemExit noDockerInterfaceMsg))
        else ([Event.runIfconfig, Event.spawnSocat], Except.ok ())
      else ([], Except.error (Err.systemExit ipToolsMissingMsg))
    | Platform.mac =>
      ([Event.sudoAliasAdd, Event.registerAliasCleanup, Event.spawnSocat], Except.ok ())
  | _ => ([], Except.ok ())

/-- Trace of an `expose_local_services` call: the advisory print when it
happens, then the SSH spawn when the argument vector is non-empty. -/
def exposeEvents (r : ExposeResult) : List Event :=
  (if r.advisory then [Event.printAdvisory] else []) ++
    r.spawnedSsh.map Event.spawnReverseForward

/-- Events of `connect` before `ssh.wait()`: the log-tail spawn, the cluster
port-forward spawn and the bridge-step events. -/
def connectPre (cfg : ConnectCfg) : List Event :=
  Event.spawnLogTail :: Event.spawnPortForward :: (bridgeStep cfg).1

/-- Events of `connect` after a successful `ssh.wait()`: the
`expose_local_services` call unless the method is `container` (in Docker
mode it happens inside the local container), then the SOCKS local-forward
tunnel only for `inject-tcp`. -/
def connectPostWait (cfg : ConnectCfg) : List Event :=
  (match cfg.method with
   | Method.container => []
   | _ => exposeEvents (expose_local_services cfg.isTty cfg.exposePorts)) ++
  (match cfg.method with
   | Method.injectTcp => [Event.spawnSocksTunnel]
   | _ => [])

/-- `connect` of `telepresence/main.py`: spawn the log tail and the cluster
port-forward, run the container bridge step (its `SystemExit` propagates),
block on `ssh.wait()` (`TimeoutError` propagates), expose the local
services unless the method is `container`, and open the SOCKS tunnel only
for `inject-tcp`. -/
def connectModel (cfg : ConnectCfg) : List Event × Except Err Unit :=
  match (bridgeStep cfg).2 with
  | Except.error e => (connectPre cfg, Except.error e)
  | Except.ok _ =>
    if cfg.sshWaitOk then
      (connectPre cfg ++ Event.sshWait true :: connectPostWait cfg, Except.ok ())
    else (connectPre cfg ++ [Event.sshWait false], Except.error Err.timeoutErr)

/-- Clocked retry loop of `start_proxy` (times in milliseconds): while less
than 10 seconds have elapsed, run one `get_env_variables` attempt; break on
success, sleep 250 ms and retry on `CalledProcessError`.  Attempt `i` takes
`dur i` ms and yields `attempt i` (`none` models the raised
`CalledProcessError`).  The fuel argument only bounds the recursion: each
failed iteration advances the clock by at least 250 ms, so 41 units are
never exhausted before the 10-second guard stops the loop. -/
def envRetryLoopAux (attempt : Nat → Option (List (Str × Str))) (dur : Nat → Nat) :
    Nat → Nat → Nat → Option (List (Str × Str))
  | 0, _, _ => none
  | Nat.succ fuel, i, t =>
    if t < 10000 then
      match attempt i with
      | some env => some env
      | none => envRetryLoopAux attempt dur fuel (i + 1) (t + dur i + 250)
    else none

/-- Value of the `env` variable after the retry loop of `start_proxy`:
`some` when an attempt succeeded before the deadline (the loop broke),
`none` when the loop exhausted its window and `env` was never bound. -/
def envRetryLoop (attempt : Nat → Option (List (Str × Str))) (dur : Nat → Nat) :
    Option (List (Str × Str)) :=
  envRetryLoopAux attempt dur 41 0 0

/-- Cluster CLI flavor (`kube_info.command` / `runner.kubectl_cmd`). -/
inductive KubeCmd
  | kubectl
  | oc
  deriving DecidableEq

/-- Configuration and collaborator results consumed by `main` / `start_proxy`
beyond those of `connect`: cluster flavor, context and server, `minishift`
presence and output, the three deployment options, `--mount`, the outcomes
of the prechecks, and the oracle for the env-dump attempts. -/
structure MainCfg where
  connect : ConnectCfg
  kubectlCmd : KubeCmd
  context : Str
  server : Str
  minishiftAvail : Bool
  minishiftIpOut : Str
  deployment : Option Str
  newDeployment : Option Str
  swapDeployment : Option Str
  mount : Bool
  kubectlAccessOk : Bool
  sshRunOk : Bool
  sshVersionOut : Str
  torsocksOk : Bool
  sshfsOk : Bool
  conntrackOk : Bool
  envAttempt : Nat → Option (List (Str × Str))
  envDur : Nat → Nat

/-- Python whitespace stripped by `str.strip()`. -/
def isPySpace (c : Char) : Bool :=
  c == ' ' || c == '\t' || c == '\n' || c == '\r' || c == '\x0b' || c == '\x0c'

/-- Python `str.strip()`: drop whitespace from both ends. -/
def pyStrip (s : Str) : Str :=
  ((s.dropWhile isPySpace).reverse.dropWhile isPySpace).reverse

/-- Python `needle in hay` on strings: contiguous substring test. -/
def containsSub (hay needle : Str) : Bool :=
  match hay with
  | [] => needle.isEmpty
  | _ :: t => needle.isPrefixOf hay || containsSub t needle

/-- `check_if_in_local_vm` of `main`: the context `minikube` is a local VM;
with the `oc` flavor and `minishift` installed, so is a cluster whose
server address contains the non-empty stripped `minishift ip` output. -/
def checkIfInLocalVm (cfg : MainCfg) : Bool × List Event :=
  if cfg.context = "minikube".toList then (true, [])
  else if cfg.kubectlCmd = KubeCmd.oc ∧ cfg.minishiftAvail = true then
    let ip := pyStrip cfg.minishiftIpOut
    ((!ip.isEmpty) && containsSub cfg.server ip, [Event.runMinishiftIp])
  else (false, [])

/-- `start_proxy` of `telepresence/main.py`: create or swap the deployment
when requested, resolve the remote identity, call `connect` (its failure
propagates), then run the bounded env retry loop.  When the loop never
succeeded, the `return` statement reads the never-assigned local `env` and
raises `UnboundLocalError`. -/
def start_proxyModel (cfg : MainCfg) : List Event × Except Err (List (Str × Str)) :=
  let dev :=
    (if cfg.newDeployment.isSome then [Event.createNewDeployment] else []) ++
    (if cfg.swapDeployment.isSome then [Event.swapDeployment] else []) ++
    [Event.getRemoteInfo]
  let c := connectModel cfg.connect
  match c.2 with
  | Except.error e => (dev ++ c.1, Except.error e)
  | Except.ok _ =>
    match envRetryLoop cfg.envAttempt cfg.envDur with
    | some env => (dev ++ c.1, Except.ok env)
    | none => (dev ++ c.1, Except.error Err.unboundLocalErr)

/-- `main` of `telepresence/main.py` (through `go`): analyze the cluster;
abort when a sub-1024 port is exposed on the `oc` flavor; report usage;
abort when vpn-tcp targets a local VM with neither `--new-deployment` nor
`--swap-deployment`; verify cluster access, the OpenSSH client and the
required helper executables (each failure aborts); then run `start_proxy`
and hand off to the launcher.  (`args.needs_root` and the mount directory
only feed the excluded launcher collaborators and are not modelled.  The
helper-executable checks — `require_command` lives outside this source
file — are modelled from the spec: any verification failure aborts with a
non-zero exit before any mutating action.) -/
def mainModel (cfg : MainCfg) : List Event × Except Err (List (Str × Str)) :=
  let ev0 := [Event.analyzeKube]
  if ((cfg.connect.exposePorts.map Prod.snd).any fun p => decide (p < 1024)) = true ∧
      cfg.kubectlCmd = KubeCmd.oc then
    (ev0, Except.error (Err.systemExit openshiftPortsMsg))
  else
    let ev1 := ev0 ++ [Event.callScout]
    let vm := checkIfInLocalVm cfg
    let ev2 := ev1 ++ vm.2
    if vm.1 = true ∧ cfg.connect.method = Method.vpnTcp ∧
        cfg.newDeployment = none ∧ cfg.swapDeployment = none then
      (ev2, Except.error (Err.systemExit vpnLocalVmMsg))
    else
      let ev3 := ev2 ++ [Event.kubectlConnectivityCheck]
      if cfg.kubectlAccessOk = false then (ev3, Except.error (Err.systemExitCode 1))
      else
        let ev4 := ev3 ++ [Event.sshVersionCheck]
        if cfg.sshRunOk = false then (ev4, Except.error (Err.systemExitCode 1))
        else if ("OpenSSH".toList.isPrefixOf cfg.sshVersionOut) = false then
          (ev4, Except.error (Err.systemExit sshNotOpenSshMsg))
        else
          let ev5 := ev4 ++ [Event.requireTorsocks]
          if cfg.torsocksOk = false then (ev5, Except.error (Err.systemExitCode 1))
          else
            let ev6 := ev5 ++ (if cfg.mount then [Event.requireSshfs] else [])
            if cfg.mount = true ∧ cfg.sshfsOk = false then
              (ev6, Except.error (Err.systemExitCode 1))
            else
              let needConntrack :=
                cfg.connect.platform = Platform.linux ∧
                  cfg.connect.method = Method.vpnTcp
              let ev7 := ev6 ++ (if needConntrack then [Event.requireConntrack] else [])
              if needConntrack ∧ cfg.conntrackOk = false then
                (ev7, Except.error (Err.systemExitCode 1))
              else
                let sp := start_proxyModel cfg
                match sp.2 with
                | Except.error e => (ev7 ++ sp.1, Except.error e)
                | Except.ok env => (ev7 ++ sp.1 ++ [Event.launchUser], Except.ok env)

/-- Events that spawn a long-lived session helper process (log tail,
port-forward, socat relay, reverse-forward SSH, SOCKS SSH). -/
def isSessionSpawn : Event → Bool
  | Event.spawnLogTail => true
  | Event.spawnPortForward => true
  | Event.spawnSocat => true
  | Event.spawnReverseForward _ => true
  | Event.spawnSocksTunnel => true
  | _ => false

/-- Events that only `connect` emits. -/
def isConnectEvent : Event → Bool
  | Event.spawnLogTail => true
  | Event.spawnPortForward => true
  | Event.runIpAddr => true
  | Event.runIfconfig => true
  | Event.sudoAliasAdd => true
  | Event.registerAliasCleanup => true
  | Event.spawnSocat => true
  | Event.sshWait _ => true
  | Event.printAdvisory => true
  | Event.spawnReverseForward _ => true
  | Event.spawnSocksTunnel => true
  | _ => false

/-- Dependent forwarding layered on the tunnel: a reverse-forward SSH
invocation or the SOCKS local-forward SSH invocation. -/
def isDepForward : Event → Bool
  | Event.spawnReverseForward _ => true
  | Event.spawnSocksTunnel => true
  | _ => false

/-- No dependent forwarding occurs in the given trace. -/
def NoDepForward (l : List Event) : Prop := ∀ e ∈ l, isDepForward e = false

/-- Remote dump text of the parsing scenario. -/
def scenarioText : Str := "A=1\nB=2\nC=line1\ncontinued\nD=4".toList

/-- Mapping the parsing scenario expects. -/
def scenarioMap : List (Str × Str) :=
  [("A".toList, "1".toList), ("B".toList, "2".toList),
   ("C".toList, "line1\ncontinued".toList), ("D".toList, "4".toList)]

/-- Concrete `connect` configuration: vpn-tcp on Linux, a reachable tunnel,
nothing exposed, no terminal. -/
def cfgConnVpn : ConnectCfg :=
  { method := Method.vpnTcp, platform := Platform.linux, ipAvail := true,
    ifconfigAvail := true, ipAddrOut := [], ifconfigOut := [],
    sshWaitOk := true, exposePorts := [], isTty := false }

/-- Concrete `connect` configuration whose `ssh.wait()` times out. -/
def cfgConnTimeout : ConnectCfg :=
  { cfgConnVpn with
    method := Method.injectTcp
    exposePorts := [(8080, 8080)]
    sshWaitOk := false }

/-- Concrete `connect` configuration: container method on Linux with neither
`ip` nor `ifconfig` installed. -/
def cfgConnNoTools : ConnectCfg :=
  { cfgConnVpn with
    method := Method.container
    ipAvail := false
    ifconfigAvail := false }

/-- Concrete `main` configuration built over a given `connect` configuration:
plain `--deployment`, every precheck passing, every env-dump attempt
failing with `CalledProcessError` instantly. -/
def mkMainCfg (cc : ConnectCfg) : MainCfg :=
  { connect := cc, kubectlCmd := KubeCmd.kubectl, context := "gke".toList,
    server := "https://10.0.0.9".toList, minishiftAvail := false,
    minishiftIpOut := [], deployment := some "dep".toList,
    newDeployment := none, swapDeployment := none, mount := false,
    kubectlAccessOk := true, sshRunOk := true,
    sshVersionOut := "OpenSSH_8.9p1".toList, torsocksOk := true,
    sshfsOk := true, conntrackOk := true,
    envAttempt := fun _ => none, envDur := fun _ => 0 }

/-- Concrete `main` configuration whose env retry loop never succeeds. -/
def cfgMainEnvFail : MainCfg := mkMainCfg cfgConnVpn

/-- Concrete `main` configuration exposing remote port 80 on OpenShift. -/
def cfgMainOcPorts : MainCfg :=
  { mkMainCfg { cfgConnVpn with exposePorts := [(8080, 80)] } with
      kubectlCmd := KubeCmd.oc }

/-- Concrete `main` configuration: minikube context, vpn-tcp method, plain
`--deployment`. -/
def cfgMainMinikube : MainCfg :=
  { mkMainCfg cfgConnVpn with context := "minikube".toList }

/-- Concrete raw remote environment mapping holding `HOME` and a remote
`TELEPRESENCE_POD` entry. -/
def sampleRemoteEnv : List (Str × Str) :=
  [("HOME".toList, "/root".toList),
   ("TELEPRESENCE_POD".toList, "remote-pod".toList),
   ("DB_HOST".toList, "db".toList)]

/-! Lemmas about the dict model. -/

theorem updateAssoc_cons_hit (k v v1 : Str) (tl : List (Str × Str)) :
    updateAssoc ((k, v1) :: tl) k v = (k, v) :: tl := by simp [updateAssoc]

theorem lookupAssoc_pair_ne (k1 v1 k2 v2 k : Str) (h1 : k1 ≠ k) (h2 : k2 ≠ k) :
    lookupAssoc [(k1, v1), (k2, v2)] k = none := by
  simp [lookupAssoc, h1, h2]

theorem lookupAssoc_pair_fst (k1 v1 k2 v2 : Str) :
    lookupAssoc [(k1, v1), (k2, v2)] k1 = some v1 := by
  simp [lookupAssoc]

theorem lookupAssoc_pair_snd (k1 v1 k2 v2 : Str) (h : k1 ≠ k2) :
    lookupAssoc [(k1, v1), (k2, v2)] k2 = some v2 := by
  simp [lookupAssoc, h]

theorem lookupAssoc_updateAssoc_self (m : List (Str × Str)) (k v) :
    lookupAssoc (updateAssoc m k v) k = some v := by
  induction m with
  | nil => simp [updateAssoc, lookupAssoc]
  | cons hd tl ih =>
    obtain ⟨k1, v1⟩ := hd
    by_cases h1 : k1 = k
    · simp [updateAssoc, h1, lookupAssoc]
    · simp [updateAssoc, h1, lookupAssoc, ih]

theorem lookupAssoc_updateAssoc_ne (m : List (Str × Str)) (k v k')
    (h : k' ≠ k) : lookupAssoc (updateAssoc m k v) k' = lookupAssoc m k' := by
  induction m with
  | nil => simp [updateAssoc, lookupAssoc, Ne.symm h]
  | cons hd tl ih =>
    obtain ⟨k1, v1⟩ := hd
    by_cases h1 : k1 = k
    · subst h1
      simp [updateAssoc, lookupAssoc, Ne.symm h]
    · simp [updateAssoc, h1, lookupAssoc, ih]

theorem updateAssoc_updateAssoc (m : List (Str × Str)) (k v w) :
    updateAssoc (updateAssoc m k v) k w = updateAssoc m k w := by
  induction m with
  | nil => simp [updateAssoc]
  | cons hd tl ih =>
    obtain ⟨k1, v1⟩ := hd
    by_cases h1 : k1 = k <;> simp [updateAssoc, h1, ih]

theorem updateAssoc_self (m : List (Str × Str)) (k v)
    (h : lookupAssoc m k = some v) : updateAssoc m k v = m := by
  induction m with
  | nil => simp [lookupAssoc] at h
  | cons hd tl ih =>
    obtain ⟨k1, v1⟩ := hd
    by_cases h1 : k1 = k
    · subst h1
      simp [lookupAssoc] at h
      simp [updateAssoc, h]
    · simp [lookupAssoc, h1] at h
      simp [updateAssoc, h1, ih h]

theorem updateAssoc_of_not_mem (m : List (Str × Str)) (k v)
    (h : k ∉ m.map Prod.fst) : updateAssoc m k v = m ++ [(k, v)] := by
  induction m with
  | nil => simp [updateAssoc]
  | cons hd tl ih =>
    obtain ⟨k1, v1⟩ := hd
    simp only [List.map_cons, List.mem_cons, not_or] at h
    simp [updateAssoc, Ne.symm h.1, ih h.2]

theorem lookupAssoc_eq_none_of_not_mem (m : List (Str × Str)) (k)
    (h : k ∉ m.map Prod.fst) : lookupAssoc m k = none := by
  induction m with
  | nil => simp [lookupAssoc]
  | cons hd tl ih =>
    obtain ⟨k1, v1⟩ := hd
    simp only [List.map_cons, List.mem_cons, not_or] at h
    simp [lookupAssoc, Ne.symm h.1, ih h.2]

theorem lookupAssoc_append_left (m m2 : List (Str × Str)) (k)
    (h : k ∉ m.map Prod.fst) :
    lookupAssoc (m ++ m2) k = lookupAssoc m2 k := by
  induction m with
  | nil => simp
  | cons hd tl ih =>
    obtain ⟨k1, v1⟩ := hd
    simp only [List.map_cons, List.mem_cons, not_or] at h
    simp [lookupAssoc, Ne.symm h.1, ih h.2]

theorem updateAssoc_append_hit (m rest : List (Str × Str)) (k v w)
    (h : k ∉ m.map Prod.fst) :
    updateAssoc (m ++ (k, w) :: rest) k v = m ++ (k, v) :: rest := by
  induction m with
  | nil => simp [updateAssoc]
  | cons hd tl ih =>
    obtain ⟨k1, v1⟩ := hd
    simp only [List.map_cons, List.mem_cons, not_or] at h
    simp [updateAssoc, Ne.symm h.1, ih h.2]

theorem map_fst_updateAssoc (m : List (Str × Str)) (k v) :
    (updateAssoc m k v).map Prod.fst =
      if k ∈ m.map Prod.fst then m.map Prod.fst else m.map Prod.fst ++ [k] := by
  induction m with
  | nil => simp [updateAssoc]
  | cons hd tl ih =>
    obtain ⟨k1, v1⟩ := hd
    by_cases h1 : k1 = k
    · subst h1
      simp [updateAssoc]
    · simp only [updateAssoc, if_neg h1, List.map_cons, ih, List.mem_cons]
      have : ¬ k = k1 := Ne.symm h1
      simp only [this, false_or]
      split <;> simp

theorem nodup_updateAssoc (m : List (Str × Str)) (k v)
    (h : (m.map Prod.fst).Nodup) :
    ((updateAssoc m k v).map Prod.fst).Nodup := by
  rw [map_fst_updateAssoc]
  split
  · exact h
  · next hk => simp [List.nodup_append, h, hk]

theorem mem_updateAssoc (m : List (Str × Str)) (k v kv)
    (h : kv ∈ updateAssoc m k v) : kv ∈ m ∨ kv = (k, v) := by
  induction m with
  | nil =>
    simp only [updateAssoc, List.mem_singleton] at h
    exact Or.inr h
  | cons hd tl ih =>
    obtain ⟨k1, v1⟩ := hd
    by_cases h1 : k1 = k
    · subst h1
      rw [updateAssoc_cons_hit] at h
      rcases List.mem_cons.1 h with h | h
      · exact Or.inr h
      · exact Or.inl (List.mem_cons_of_mem _ h)
    · simp only [updateAssoc, if_neg h1] at h
      rcases List.mem_cons.1 h with h | h
      · exact Or.inl (List.mem_cons.2 (Or.inl h))
      · rcases ih h with h2 | h2
        · exact Or.inl (List.mem_cons_of_mem _ h2)
        · exact Or.inr h2

theorem lookupAssoc_mem (m : List (Str × Str)) (k v)
    (h : lookupAssoc m k = some v) : (k, v) ∈ m := by
  induction m with
  | nil => simp [lookupAssoc] at h
  | cons hd tl ih =>
    obtain ⟨k1, v1⟩ := hd
    by_cases h1 : k1 = k
    · subst h1
      simp [lookupAssoc] at h
      simp [h]
    · simp [lookupAssoc, h1] at h
      simp [ih h]

theorem delKey_sublist (m : List (Str × Str)) (k) : (delKey m k).Sublist m := by
  induction m with
  | nil => simp [delKey]
  | cons hd tl ih =>
    obtain ⟨k1, v1⟩ := hd
    by_cases h1 : k1 = k
    · simp only [delKey, if_pos h1]
      exact List.sublist_cons_self _ _
    · simp only [delKey, if_neg h1]
      exact ih.cons₂ _

theorem lookupAssoc_delKey_self (m : List (Str × Str)) (k)
    (h : (m.map Prod.fst).Nodup) : lookupAssoc (delKey m k) k = none := by
  induction m with
  | nil => simp [delKey, lookupAssoc]
  | cons hd tl ih =>
    obtain ⟨k1, v1⟩ := hd
    simp only [List.map_cons, List.nodup_cons] at h
    by_cases h1 : k1 = k
    · subst h1
      simp only [delKey, if_pos rfl]
      exact lookupAssoc_eq_none_of_not_mem _ _ h.1
    · simp [delKey, h1, lookupAssoc, ih h.2]

theorem mem_delKey_of_ne (m : List (Str × Str)) (k kv)
    (h : kv ∈ m) (hne : kv.1 ≠ k) : kv ∈ delKey m k := by
  induction m with
  | nil => simp at h
  | cons hd tl ih =>
    obtain ⟨k1, v1⟩ := hd
    by_cases h1 : k1 = k
    · subst h1
      simp only [delKey, if_pos rfl]
      rcases List.mem_cons.1 h with h | h
      · exact absurd (congrArg Prod.fst h) hne
      · exact h
    · simp only [delKey, if_neg h1, List.mem_cons]
      rcases List.mem_cons.1 h with h | h
      · exact Or.inl h
      · exact Or.inr (ih h)

theorem nodup_map_fst_delKey (m : List (Str × Str)) (k)
    (h : (m.map Prod.fst).Nodup) : ((delKey m k).map Prod.fst).Nodup :=
  ((delKey_sublist m k).map Prod.fst).nodup h

theorem lookupAssoc_updateAll_of_not_mem (l : List (Str × Str)) :
    ∀ init k, k ∉ l.map Prod.fst →
      lookupAssoc (updateAll init l) k = lookupAssoc init k := by
  induction l with
  | nil => intro init k _; simp [updateAll]
  | cons hd tl ih =>
    intro init k h
    obtain ⟨k1, v1⟩ := hd
    simp only [List.map_cons, List.mem_cons, not_or] at h
    rw [updateAll, ih _ _ h.2]
    exact lookupAssoc_updateAssoc_ne _ _ _ _ h.1

theorem lookupAssoc_updateAll_isSome (l : List (Str × Str)) :
    ∀ init k, (lookupAssoc init k).isSome →
      (lookupAssoc (updateAll init l) k).isSome := by
  induction l with
  | nil => intro init k h; simpa [updateAll] using h
  | cons hd tl ih =>
    intro init k h
    obtain ⟨k1, v1⟩ := hd
    rw [updateAll]
    apply ih
    by_cases hk : k = k1
    · subst hk
      rw [lookupAssoc_updateAssoc_self]
      rfl
    · rw [lookupAssoc_updateAssoc_ne _ _ _ _ hk]
      exact h

theorem lookupAssoc_updateAll_mem (l : List (Str × Str)) :
    ∀ init k v, (l.map Prod.fst).Nodup → (k, v) ∈ l →
      lookupAssoc (updateAll init l) k = some v := by
  induction l with
  | nil => intro init k v _ h; simp at h
  | cons hd tl ih =>
    intro init k v hnd h
    obtain ⟨k1, v1⟩ := hd
    simp only [List.map_cons, List.nodup_cons] at hnd
    rcases List.mem_cons.1 h with h | h
    · rw [Prod.mk.injEq] at h
      obtain ⟨hk, hv⟩ := h
      subst hk; subst hv
      rw [updateAll, lookupAssoc_updateAll_of_not_mem _ _ _ hnd.1]
      exact lookupAssoc_updateAssoc_self _ _ _
    · exact ih _ _ _ hnd.2 h

theorem not_mem_of_lookupAssoc_none (m : List (Str × Str)) (k)
    (h : lookupAssoc m k = none) : k ∉ m.map Prod.fst := by
  induction m with
  | nil => simp
  | cons hd tl ih =>
    obtain ⟨k1, v1⟩ := hd
    by_cases h1 : k1 = k
    · subst h1; simp [lookupAssoc] at h
    · simp [lookupAssoc, h1] at h
      simp only [List.map_cons, List.mem_cons, not_or]
      exact ⟨Ne.symm h1, ih h⟩

/-! Claim C3: the surfaced environment never holds the three host-specific
variables and always holds the two synthetic session variables. -/

/-- C3: for every raw remote environment mapping and every remote identity,
the environment built by `get_env_variables` holds no `HOME`, `PATH` or
`HOSTNAME` entry, and always holds `TELEPRESENCE_POD` and
`TELEPRESENCE_CONTAINER` entries. -/
theorem get_env_variables_strips_and_marks (pod cont : Str)
    (renv : List (Str × Str)) (hnd : (renv.map Prod.fst).Nodup) :
    lookupAssoc (get_env_variables pod cont renv) "HOME".toList = none ∧
    lookupAssoc (get_env_variables pod cont renv) "PATH".toList = none ∧
    lookupAssoc (get_env_variables pod cont renv) "HOSTNAME".toList = none ∧
    (lookupAssoc (get_env_variables pod cont renv)
      "TELEPRESENCE_POD".toList).isSome = true ∧
    (lookupAssoc (get_env_variables pod cont renv)
      "TELEPRESENCE_CONTAINER".toList).isSome = true := by
  have hnd1 := nodup_map_fst_delKey renv "HOME".toList hnd
  have hnd2 := nodup_map_fst_delKey _ "PATH".toList hnd1
  have h1 : "HOME".toList ∉ (delKey renv "HOME".toList).map Prod.fst :=
    not_mem_of_lookupAssoc_none _ _ (lookupAssoc_delKey_self _ _ hnd)
  have h2 : "PATH".toList ∉
      (delKey (delKey renv "HOME".toList) "PATH".toList).map Prod.fst :=
    not_mem_of_lookupAssoc_none _ _ (lookupAssoc_delKey_self _ _ hnd1)
  have h3 : "HOSTNAME".toList ∉
      (delKey (delKey (delKey renv "HOME".toList) "PATH".toList)
        "HOSTNAME".toList).map Prod.fst :=
    not_mem_of_lookupAssoc_none _ _ (lookupAssoc_delKey_self _ _ hnd2)
  have hsubH : ((delKey (delKey (delKey renv "HOME".toList) "PATH".toList)
      "HOSTNAME".toList).map Prod.fst) ⊆
      ((delKey (delKey renv "HOME".toList) "PATH".toList).map Prod.fst) :=
    ((delKey_sublist _ _).map _).subset
  have hsubP : ((delKey (delKey renv "HOME".toList) "PATH".toList).map
      Prod.fst) ⊆ ((delKey renv "HOME".toList).map Prod.fst) :=
    ((delKey_sublist _ _).map _).subset
  have h1d : "HOME".toList ∉ (delKey (delKey (delKey renv "HOME".toList)
      "PATH".toList) "HOSTNAME".toList).map Prod.fst :=
    fun hm => h1 (hsubP (hsubH hm))
  have h2d : "PATH".toList ∉ (delKey (delKey (delKey renv "HOME".toList)
      "PATH".toList) "HOSTNAME".toList).map Prod.fst :=
    fun hm => h2 (hsubH hm)
  simp only [get_env_variables]
  refine ⟨?_, ?_, ?_, ?_, ?_⟩
  · rw [lookupAssoc_updateAll_of_not_mem _ _ _ h1d]
    exact lookupAssoc_pair_ne _ _ _ _ _ (by decide) (by decide)
  · rw [lookupAssoc_updateAll_of_not_mem _ _ _ h2d]
    exact lookupAssoc_pair_ne _ _ _ _ _ (by decide) (by decide)
  · rw [lookupAssoc_updateAll_of_not_mem _ _ _ h3]
    exact lookupAssoc_pair_ne _ _ _ _ _ (by decide) (by decide)
  · exact lookupAssoc_updateAll_isSome _ _ _
      (by rw [lookupAssoc_pair_fst]; rfl)
  · exact lookupAssoc_updateAll_isSome _ _ _
      (by rw [lookupAssoc_pair_snd _ _ _ _ (by decide)]; rfl)

/-- C3 witness: the guarantee evaluated at a concrete remote mapping that
does contain `HOME`. -/
theorem get_env_variables_strips_and_marks_witness :
    (sampleRemoteEnv.map Prod.fst).Nodup ∧
    lookupAssoc (get_env_variables "pod0".toList "cont0".toList sampleRemoteEnv)
      "HOME".toList = none ∧
    (lookupAssoc (get_env_variables "pod0".toList "cont0".toList sampleRemoteEnv)
      "TELEPRESENCE_CONTAINER".toList).isSome = true := by
  have h := get_env_variables_strips_and_marks "pod0".toList "cont0".toList
    sampleRemoteEnv (by decide)
  exact ⟨by decide, h.1, h.2.2.2.2⟩

/-! Claim C9: a remote `TELEPRESENCE_POD` / `TELEPRESENCE_CONTAINER` value
overrides the synthetic one, because the remote mapping is merged over the
synthetic entries. -/

/-- C9: when the raw remote mapping itself holds a `TELEPRESENCE_POD` (or
`TELEPRESENCE_CONTAINER`) entry, its remote value is the one surfaced by
`get_env_variables`. -/
theorem get_env_variables_remote_overrides_synthetic (pod cont : Str)
    (renv : List (Str × Str)) (hnd : (renv.map Prod.fst).Nodup) :
    (∀ v, ("TELEPRESENCE_POD".toList, v) ∈ renv →
      lookupAssoc (get_env_variables pod cont renv)
        "TELEPRESENCE_POD".toList = some v) ∧
    (∀ v, ("TELEPRESENCE_CONTAINER".toList, v) ∈ renv →
      lookupAssoc (get_env_variables pod cont renv)
        "TELEPRESENCE_CONTAINER".toList = some v) := by
  have hnd1 := nodup_map_fst_delKey renv "HOME".toList hnd
  have hnd2 := nodup_map_fst_delKey _ "PATH".toList hnd1
  have hnd3 := nodup_map_fst_delKey _ "HOSTNAME".toList hnd2
  have hpodH : ("TELEPRESENCE_POD".toList : Str) ≠ "HOME".toList := by decide
  have hpodP : ("TELEPRESENCE_POD".toList : Str) ≠ "PATH".toList := by decide
  have hpodN : ("TELEPRESENCE_POD".toList : Str) ≠ "HOSTNAME".toList := by
    decide
  have hconH : ("TELEPRESENCE_CONTAINER".toList : Str) ≠ "HOME".toList := by
    decide
  have hconP : ("TELEPRESENCE_CONTAINER".toList : Str) ≠ "PATH".toList := by
    decide
  have hconN : ("TELEPRESENCE_CONTAINER".toList : Str) ≠ "HOSTNAME".toList := by
    decide
  constructor
  · intro v hv
    have hmem : ("TELEPRESENCE_POD".toList, v) ∈
        delKey (delKey (delKey renv "HOME".toList) "PATH".toList)
          "HOSTNAME".toList :=
      mem_delKey_of_ne _ _ _
        (mem_delKey_of_ne _ _ _ (mem_delKey_of_ne _ _ _ hv hpodH) hpodP) hpodN
    simp only [get_env_variables]
    exact lookupAssoc_updateAll_mem _ _ _ _ hnd3 hmem
  · intro v hv
    have hmem : ("TELEPRESENCE_CONTAINER".toList, v) ∈
        delKey (delKey (delKey renv "HOME".toList) "PATH".toList)
          "HOSTNAME".toList :=
      mem_delKey_of_ne _ _ _
        (mem_delKey_of_ne _ _ _ (mem_delKey_of_ne _ _ _ hv hconH) hconP) hconN
    simp only [get_env_variables]
    exact lookupAssoc_updateAll_mem _ _ _ _ hnd3 hmem

/-- C9 witness: the override evaluated at a concrete remote mapping carrying
its own `TELEPRESENCE_POD`. -/
theorem get_env_variables_remote_overrides_synthetic_witness :
    (sampleRemoteEnv.map Prod.fst).Nodup ∧
    ("TELEPRESENCE_POD".toList, "remote-pod".toList) ∈ sampleRemoteEnv ∧
    lookupAssoc (get_env_variables "pod0".toList "cont0".toList sampleRemoteEnv)
      "TELEPRESENCE_POD".toList = some "remote-pod".toList := by
  have h := (get_env_variables_remote_overrides_synthetic "pod0".toList
    "cont0".toList sampleRemoteEnv (by decide)).1 "remote-pod".toList (by decide)
  exact ⟨by decide, by decide, h⟩

/-! Lemmas about line splitting and the remote-environment parser. -/

theorem contains_char_iff (l : Str) (c : Char) :
    l.contains c = true ↔ c ∈ l := by
  simp [List.contains, List.elem_iff]

theorem splitlines_nil : splitlines [] = [] := rfl

theorem splitlines_crlf (s : Str) :
    splitlines ('\r' :: '\n' :: s) = [] :: splitlines s := rfl

set_option maxHeartbeats 1600000 in
theorem splitlines_break (c : Char) (s : Str) (hc : isLineBreak c = true)
    (hcr : c ≠ '\r') : splitlines (c :: s) = [] :: splitlines s := by
  rw [splitlines.eq_3 c s (fun s1 h _ => hcr h), if_pos hc]

theorem splitlines_cr (s : Str) (h : ∀ s2, s ≠ '\n' :: s2) :
    splitlines ('\r' :: s) = [] :: splitlines s := by
  rw [splitlines.eq_3 '\r' s (fun s1 _ hs => h s1 hs), if_pos (by decide)]

theorem splitlines_char (c : Char) (s : Str) (hc : isLineBreak c = false) :
    splitlines (c :: s) =
      match splitlines s with
      | [] => [[c]]
      | l :: ls => (c :: l) :: ls := by
  have hcr : c ≠ '\r' := by
    intro h
    subst h
    simp [isLineBreak] at hc
  rw [splitlines.eq_3 c s (fun s1 h _ => hcr h), if_neg (by simp [hc])]

theorem noBreak_nil : NoBreak [] := by intro c hc; simp at hc

theorem noBreak_cons (c : Char) (l : Str) (hc : isLineBreak c = false)
    (hl : NoBreak l) : NoBreak (c :: l) := by
  intro d hd
  rcases List.mem_cons.1 hd with h | h
  · subst h; exact hc
  · exact hl d h

theorem noBreak_append (a b : Str) (ha : NoBreak a) (hb : NoBreak b) :
    NoBreak (a ++ b) := by
  intro d hd
  rcases List.mem_append.1 hd with h | h
  · exact ha d h
  · exact hb d h

theorem mem_splitlines_noBreak (s : Str) : ∀ l ∈ splitlines s, NoBreak l := by
  induction s using splitlines.induct with
  | case1 => simp [splitlines_nil]
  | case2 s ih =>
    rw [splitlines_crlf]
    intro l hl
    rcases List.mem_cons.1 hl with h | h
    · subst h; exact noBreak_nil
    · exact ih l h
  | case3 c s hne hc ih =>
    have hrw : splitlines (c :: s) = [] :: splitlines s := by
      by_cases hcr : c = '\r'
      · subst hcr
        exact splitlines_cr s (fun s2 hs => hne s2 rfl hs)
      · exact splitlines_break c s hc hcr
    rw [hrw]
    intro l hl
    rcases List.mem_cons.1 hl with h | h
    · subst h; exact noBreak_nil
    · exact ih l h
  | case4 c s hne hc hnil ih =>
    rw [splitlines_char c s (by simpa using hc), hnil]
    intro l hl
    rcases List.mem_cons.1 hl with h | h
    · subst h
      exact noBreak_cons c [] (by simpa using hc) noBreak_nil
    · simp at h
  | case5 c s hne hc l0 ls heq ih =>
    rw [splitlines_char c s (by simpa using hc), heq]
    intro l hl
    rcases List.mem_cons.1 hl with h | h
    · subst h
      exact noBreak_cons c l0 (by simpa using hc)
        (ih l0 (heq ▸ List.mem_cons_self _ _))
    · exact ih l (heq ▸ List.mem_cons_of_mem _ h)

theorem splitlines_append_line (l : Str) (hl : NoBreak l) (rest : Str) :
    splitlines (l ++ '\n' :: rest) = l :: splitlines rest := by
  induction l with
  | nil =>
    rw [List.nil_append]
    exact splitlines_break '\n' rest (by decide) (by decide)
  | cons c l1 ih =>
    have hc : isLineBreak c = false := hl c (List.mem_cons_self _ _)
    rw [List.cons_append,
      splitlines_char c (l1 ++ '\n' :: rest) hc,
      ih (fun d hd => hl d (List.mem_cons_of_mem _ hd))]

theorem splitlines_entry (conts : List Str) :
    ∀ line : Str, NoBreak line → (∀ c ∈ conts, NoBreak c) → ∀ rest : Str,
      splitlines (line ++ joinC conts ++ '\n' :: rest) =
        (line :: conts) ++ splitlines rest := by
  induction conts with
  | nil =>
    intro line hl _ rest
    rw [joinC, List.append_nil, splitlines_append_line line hl rest]
    rfl
  | cons c cs ih =>
    intro line hl hc rest
    have hshape : line ++ joinC (c :: cs) ++ '\n' :: rest =
        line ++ '\n' :: (c ++ joinC cs ++ '\n' :: rest) := by
      rw [joinC]
      simp [List.append_assoc]
    rw [hshape, splitlines_append_line line hl,
      ih c (hc c (List.mem_cons_self _ _))
        (fun d hd => hc d (List.mem_cons_of_mem _ hd))]
    rfl

theorem splitFirstEq_none_of_not_mem (l : Str) (h : '=' ∉ l) :
    splitFirstEq l = none := by
  induction l with
  | nil => rfl
  | cons c s ih =>
    have hc : ¬ c = '=' := by
      intro hh
      exact h (by rw [hh]; exact List.mem_cons_self _ _)
    have hs : '=' ∉ s := fun hh => h (List.mem_cons_of_mem _ hh)
    simp only [splitFirstEq, if_neg hc, ih hs]

theorem not_mem_of_splitFirstEq_none (l : Str) (h : splitFirstEq l = none) :
    '=' ∉ l := by
  induction l with
  | nil => simp
  | cons c s ih =>
    by_cases hc : c = '='
    · subst hc; simp [splitFirstEq] at h
    · simp only [splitFirstEq, if_neg hc] at h
      cases hs : splitFirstEq s with
      | none =>
        simp only [List.mem_cons, not_or]
        exact ⟨fun hh => hc hh.symm, ih hs⟩
      | some kv =>
        obtain ⟨k, v⟩ := kv
        rw [hs] at h
        simp at h

theorem splitFirstEq_some_decomp (l : Str) :
    ∀ k v, splitFirstEq l = some (k, v) → l = k ++ '=' :: v ∧ '=' ∉ k := by
  induction l with
  | nil => intro k v h; simp [splitFirstEq] at h
  | cons c s ih =>
    intro k v h
    by_cases hc : c = '='
    · subst hc
      simp [splitFirstEq] at h
      obtain ⟨hk, hv⟩ := h
      subst hk; subst hv
      simp
    · simp only [splitFirstEq, if_neg hc] at h
      cases hs : splitFirstEq s with
      | none => rw [hs] at h; simp at h
      | some kv =>
        obtain ⟨k1, v1⟩ := kv
        rw [hs] at h
        simp only [Option.some.injEq, Prod.mk.injEq] at h
        obtain ⟨hk, hv⟩ := h
        subst hk; subst hv
        obtain ⟨hdec, hnm⟩ := ih k1 v1 hs
        constructor
        · rw [List.cons_append, hdec]
        · simp only [List.mem_cons, not_or]
          exact ⟨fun hh => hc hh.symm, hnm⟩

theorem splitFirstEq_append (k v : Str) (h : '=' ∉ k) :
    splitFirstEq (k ++ '=' :: v) = some (k, v) := by
  induction k with
  | nil => simp [splitFirstEq]
  | cons c k1 ih =>
    have hc : ¬ c = '=' := by
      intro hh
      exact h (by rw [hh]; exact List.mem_cons_self _ _)
    rw [List.cons_append]
    simp only [splitFirstEq, if_neg hc,
      ih (fun hh => h (List.mem_cons_of_mem _ hh))]

theorem joinC_append (a b : List Str) : joinC (a ++ b) = joinC a ++ joinC b := by
  induction a with
  | nil => simp [joinC]
  | cons c cs ih => simp [joinC, ih, List.append_assoc]

theorem parseLinesAux_conts (conts : List Str) :
    ∀ (m : List (Str × Str)) (k v : Str) (rest : List Str),
      (∀ c ∈ conts, '=' ∉ c) → lookupAssoc m k = some v →
      parseLinesAux m (some k) (conts ++ rest) =
        parseLinesAux (updateAssoc m k (v ++ joinC conts)) (some k) rest := by
  induction conts with
  | nil =>
    intro m k v rest _ hv
    rw [List.nil_append, joinC, List.append_nil, updateAssoc_self m k v hv]
  | cons c cs ih =>
    intro m k v rest hc hv
    have hnone := splitFirstEq_none_of_not_mem c (hc c (List.mem_cons_self _ _))
    rw [List.cons_append]
    simp only [parseLinesAux, hnone, hv]
    rw [ih _ k (v ++ '\n' :: c) rest
        (fun d hd => hc d (List.mem_cons_of_mem _ hd))
        (lookupAssoc_updateAssoc_self m k _),
      updateAssoc_updateAssoc]
    have : v ++ '\n' :: c ++ joinC cs = v ++ joinC (c :: cs) := by
      rw [joinC]
      simp [List.append_assoc]
    rw [this]

theorem specBlocks_nil : specBlocks [] = some [] := by
  rw [specBlocks.eq_def]

theorem specBlocks_cons (line : Str) (rest : List Str) :
    specBlocks (line :: rest) =
      match splitFirstEq line with
      | none => none
      | some (k, v0) =>
        match specBlocks (rest.dropWhile (fun l => !(l.contains '='))) with
        | none => none
        | some blocks =>
          some ((k, v0 ++ joinC (rest.takeWhile (fun l => !(l.contains '=')))) ::
            blocks) := by
  rw [specBlocks.eq_def]

theorem dropWhile_head_false (p : Str → Bool) (l : List Str) :
    l.dropWhile p = [] ∨
      ∃ hd tl, l.dropWhile p = hd :: tl ∧ p hd = false := by
  induction l with
  | nil => exact Or.inl rfl
  | cons c s ih =>
    by_cases hp : p c = true
    · rw [List.dropWhile_cons, if_pos hp]
      exact ih
    · right
      exact ⟨c, s, by rw [List.dropWhile_cons, if_neg hp], by simpa using hp⟩

theorem parseLinesAux_eq_specBlocks (n : Nat) :
    ∀ ls : List Str, ls.length ≤ n →
      (ls = [] ∨ ∃ hd tl, ls = hd :: tl ∧ '=' ∈ hd) →
      ∀ (m : List (Str × Str)) (prior : Option Str),
        parseLinesAux m prior ls = (specBlocks ls).map (updateAll m) := by
  induction n with
  | zero =>
    intro ls hlen _ m prior
    have hnil : ls = [] := List.eq_nil_of_length_eq_zero (Nat.le_zero.1 hlen)
    subst hnil
    simp [parseLinesAux, specBlocks_nil, updateAll]
  | succ n ihn =>
    intro ls hlen hcond m prior
    rcases hcond with rfl | ⟨hd, tl, rfl, hdmem⟩
    · simp [parseLinesAux, specBlocks_nil, updateAll]
    · cases hse : splitFirstEq hd with
      | none => exact absurd hdmem (not_mem_of_splitFirstEq_none _ hse)
      | some kv =>
        obtain ⟨k, v0⟩ := kv
        have hc : ∀ c ∈ tl.takeWhile (fun l => !(l.contains '=')), '=' ∉ c := by
          intro c hcm hmem
          have hp := List.mem_takeWhile_imp hcm
          rw [(contains_char_iff c '=').2 hmem] at hp
          simp at hp
        have hlen2 : (tl.dropWhile (fun l => !(l.contains '='))).length ≤ n := by
          have h1 := (List.dropWhile_sublist (fun l : Str => !(l.contains '='))
            (l := tl)).length_le
          have h2 : tl.length ≤ n := by
            simpa [Nat.succ_le_succ_iff] using hlen
          omega
        have hrcond : tl.dropWhile (fun l => !(l.contains '=')) = [] ∨
            ∃ h2 t2, tl.dropWhile (fun l => !(l.contains '=')) = h2 :: t2 ∧
              '=' ∈ h2 := by
          rcases dropWhile_head_false (fun l => !(l.contains '=')) tl with
            h | ⟨h2, t2, heq, hp⟩
          · exact Or.inl h
          · refine Or.inr ⟨h2, t2, heq, ?_⟩
            rw [← contains_char_iff]
            simpa using hp
        calc parseLinesAux m prior (hd :: tl)
            = parseLinesAux (updateAssoc m k v0) (some k) tl := by
              simp only [parseLinesAux, hse]
          _ = parseLinesAux (updateAssoc m k v0) (some k)
                (tl.takeWhile (fun l => !(l.contains '=')) ++
                  tl.dropWhile (fun l => !(l.contains '='))) := by
              rw [List.takeWhile_append_dropWhile]
          _ = parseLinesAux
                (updateAssoc m k
                  (v0 ++ joinC (tl.takeWhile (fun l => !(l.contains '=')))))
                (some k) (tl.dropWhile (fun l => !(l.contains '='))) := by
              rw [parseLinesAux_conts _ _ k v0 _ hc
                (lookupAssoc_updateAssoc_self m k v0), updateAssoc_updateAssoc]
          _ = (specBlocks (tl.dropWhile (fun l => !(l.contains '=')))).map
                (updateAll (updateAssoc m k
                  (v0 ++ joinC (tl.takeWhile (fun l => !(l.contains '=')))))) :=
              ihn _ hlen2 hrcond _ _
          _ = (specBlocks (hd :: tl)).map (updateAll m) := by
              rw [specBlocks_cons]
              simp only [hse]
              cases hsb : specBlocks (tl.dropWhile (fun l => !(l.contains '=')))
                with
              | none => simp
              | some bs => simp [updateAll]

/-! Claim C1: the parser behaves exactly as the spec words describe it, and
the concrete scenario parses as stated. -/

/-- C1: the remote-environment parser agrees with the parse described by the
spec (each `=`-holding line starts a new key at the first `=`; each
`=`-free line is appended, newline-preceded, to the most recent key, which
must exist) on every dump text, and parses the scenario dump
`A=1\nB=2\nC=line1\ncontinued\nD=4` to the scenario mapping. -/
theorem remote_env_parse_matches_spec :
    (∀ text : Str, _get_remote_env text = parseRemoteEnvSpec text) ∧
    _get_remote_env scenarioText = some scenarioMap := by
  constructor
  · intro text
    rw [_get_remote_env, parseRemoteEnvSpec]
    cases hls : splitlines text with
    | nil => simp [parseLinesAux, specBlocks_nil, updateAll]
    | cons hd tl =>
      by_cases hmem : '=' ∈ hd
      · exact parseLinesAux_eq_specBlocks (hd :: tl).length (hd :: tl) le_rfl
          (Or.inr ⟨hd, tl, rfl, hmem⟩) [] none
      · have hse := splitFirstEq_none_of_not_mem hd hmem
        rw [specBlocks_cons]
        simp [parseLinesAux, hse]
  · decide

theorem parseLinesAux_goodMap (lines : List Str) :
    ∀ (m : List (Str × Str)) (prior : Option Str) (m' : List (Str × Str)),
      (∀ l ∈ lines, NoBreak l) → GoodMap m →
      (∀ k, prior = some k → (lookupAssoc m k).isSome = true) →
      parseLinesAux m prior lines = some m' → GoodMap m' := by
  induction lines with
  | nil =>
    intro m prior m' _ hgm _ h
    rw [parseLinesAux] at h
    cases h
    exact hgm
  | cons line rest ih =>
    intro m prior m' hnb hgm hpr h
    have hnbl := hnb line (List.mem_cons_self _ _)
    have hnbr : ∀ l ∈ rest, NoBreak l :=
      fun l hl => hnb l (List.mem_cons_of_mem _ hl)
    simp only [parseLinesAux] at h
    cases hse : splitFirstEq line with
    | some kv =>
      obtain ⟨k, v0⟩ := kv
      simp only [hse] at h
      obtain ⟨hl, hkne⟩ := splitFirstEq_some_decomp line k v0 hse
      have hnbk : NoBreak k := fun ch hch =>
        hnbl ch (by rw [hl]; exact List.mem_append_left _ hch)
      have hnbv : NoBreak v0 := fun ch hch =>
        hnbl ch
          (by rw [hl]; exact List.mem_append_right _ (List.mem_cons_of_mem _ hch))
      refine ih _ _ _ hnbr ⟨?_, nodup_updateAssoc _ _ _ hgm.2⟩ ?_ h
      · intro kv hkv
        rcases mem_updateAssoc _ _ _ _ hkv with hin | heq
        · exact hgm.1 kv hin
        · subst heq
          exact ⟨hkne, hnbk, ⟨v0, [], by simp [joinC], hnbv, by simp⟩⟩
      · intro k2 hk2
        obtain rfl : k = k2 := Option.some.inj hk2
        rw [lookupAssoc_updateAssoc_self]
        rfl
    | none =>
      simp only [hse] at h
      cases prior with
      | none => exact absurd h (by simp)
      | some k =>
        have hks := hpr k rfl
        cases hlk : lookupAssoc m k with
        | none => rw [hlk] at hks; simp at hks
        | some old =>
          simp only [hlk] at h
          obtain ⟨hkeq0, hkb0, hov⟩ := hgm.1 (k, old) (lookupAssoc_mem _ _ _ hlk)
          obtain ⟨v0, conts, hdecomp0, hnbv0, hcs⟩ := hov
          have hkeq : '=' ∉ k := hkeq0
          have hkb : NoBreak k := hkb0
          have hdecomp : old = v0 ++ joinC conts := hdecomp0
          have hline_ne : '=' ∉ line := not_mem_of_splitFirstEq_none _ hse
          refine ih _ _ _ hnbr ⟨?_, nodup_updateAssoc _ _ _ hgm.2⟩ ?_ h
          · intro kv hkv
            rcases mem_updateAssoc _ _ _ _ hkv with hin | heq
            · exact hgm.1 kv hin
            · subst heq
              refine ⟨hkeq, hkb, ⟨v0, conts ++ [line], ?_, hnbv0, ?_⟩⟩
              · show old ++ '\n' :: line = v0 ++ joinC (conts ++ [line])
                rw [hdecomp, joinC_append, joinC, joinC]
                simp [List.append_assoc]
              · intro c hcm
                rcases List.mem_append.1 hcm with h1 | h1
                · exact hcs c h1
                · rw [List.mem_singleton] at h1
                  subst h1
                  exact ⟨hnbl, hline_ne⟩
          · intro k2 hk2
            obtain rfl : k = k2 := Option.some.inj hk2
            rw [lookupAssoc_updateAssoc_self]
            rfl

theorem lookupAssoc_single (k v : Str) : lookupAssoc [(k, v)] k = some v := by
  simp [lookupAssoc]

theorem parseLinesAux_serialize (m : List (Str × Str)) :
    ∀ (acc : List (Str × Str)) (prior : Option Str),
      (∀ kv ∈ m, ('=' ∉ kv.1) ∧ NoBreak kv.1 ∧ GoodVal kv.2) →
      (m.map Prod.fst).Nodup →
      (∀ k ∈ m.map Prod.fst, k ∉ acc.map Prod.fst) →
      parseLinesAux acc prior (splitlines (serializeEnv m)) =
        some (acc ++ m) := by
  induction m with
  | nil =>
    intro acc prior _ _ _
    rw [serializeEnv, splitlines_nil, parseLinesAux, List.append_nil]
  | cons kv m1 ih =>
    obtain ⟨k, v⟩ := kv
    intro acc prior hgv hnd hdisj
    obtain ⟨hkeq0, hkb0, hGV⟩ := hgv (k, v) (List.mem_cons_self _ _)
    obtain ⟨v0, conts, hdec0, hnbv0, hcs⟩ := hGV
    have hkeq : '=' ∉ k := hkeq0
    have hkb : NoBreak k := hkb0
    have hdec : v = v0 ++ joinC conts := hdec0
    have hshape : serializeEnv ((k, v) :: m1) =
        (k ++ '=' :: v0) ++ joinC conts ++ '\n' :: serializeEnv m1 := by
      show k ++ '=' :: (v ++ '\n' :: serializeEnv m1) = _
      rw [hdec]
      simp [List.append_assoc]
    have hnbline : NoBreak (k ++ '=' :: v0) :=
      noBreak_append _ _ hkb (noBreak_cons '=' v0 (by decide) hnbv0)
    rw [hshape,
      splitlines_entry conts (k ++ '=' :: v0) hnbline
        (fun c hcm => (hcs c hcm).1) (serializeEnv m1)]
    rw [List.cons_append]
    simp only [parseLinesAux, splitFirstEq_append k v0 hkeq]
    have hknacc : k ∉ acc.map Prod.fst := hdisj k (by simp)
    rw [updateAssoc_of_not_mem acc k v0 hknacc]
    rw [parseLinesAux_conts conts _ k v0 _ (fun c hcm => (hcs c hcm).2)
      (by rw [lookupAssoc_append_left _ _ _ hknacc]; exact lookupAssoc_single _ _)]
    rw [updateAssoc_append_hit acc [] k (v0 ++ joinC conts) v0 hknacc]
    rw [← hdec]
    simp only [List.map_cons, List.nodup_cons] at hnd
    rw [ih (acc ++ [(k, v)]) (some k)
      (fun kv2 h2 => hgv kv2 (List.mem_cons_of_mem _ h2)) hnd.2 ?hdisj2]
    · rw [List.append_assoc]
      rfl
    case hdisj2 =>
      intro k2 hk2
      simp only [List.map_append, List.mem_append, not_or]
      constructor
      · exact hdisj k2 (by simp [hk2])
      · simp only [List.map_cons, List.map_nil, List.mem_singleton]
        intro hh
        subst hh
        exact hnd.1 hk2

/-! Claim C8: parsing is idempotent — serializing a parsed mapping back to
newline-terminated `KEY=value` lines and re-parsing yields the mapping. -/

/-- C8: for every mapping the parser produces, serializing it back to
`KEY=value` lines (each terminated by a newline, the remote dump format;
values may contain embedded newlines, which become continuation lines) and
parsing that text again yields the same mapping. -/
theorem remote_env_parse_roundtrip (text : Str) (m : List (Str × Str))
    (h : _get_remote_env text = some m) :
    _get_remote_env (serializeEnv m) = some m := by
  have hgm : GoodMap m :=
    parseLinesAux_goodMap (splitlines text) [] none m
      (mem_splitlines_noBreak text)
      ⟨fun kv hkv => absurd hkv (List.not_mem_nil kv), by simp⟩
      (fun k hk => by simp at hk) h
  rw [_get_remote_env]
  have hser := parseLinesAux_serialize m [] none hgm.1 hgm.2 (by simp)
  simpa using hser

/-- C8 witness: the roundtrip theorem applied to a dump whose value holds an
embedded (and trailing) newline. -/
theorem remote_env_parse_roundtrip_witness :
    _get_remote_env "A=1\n\nB=2".toList =
      some [("A".toList, "1\n".toList), ("B".toList, "2".toList)] ∧
    _get_remote_env
        (serializeEnv [("A".toList, "1\n".toList), ("B".toList, "2".toList)]) =
      some [("A".toList, "1\n".toList), ("B".toList, "2".toList)] :=
  ⟨by decide, remote_env_parse_roundtrip "A=1\n\nB=2".toList _ (by decide)⟩

/-! Claim C6: forwarding nothing is a valid, non-error configuration. -/

/-- C6: called with an empty port-mapping list, `expose_local_services`
builds zero reverse-forward arguments, spawns no SSH child, prints the
advisory exactly when output is a terminal, and returns normally (the
function has no failure outcome). -/
theorem expose_local_services_empty_ports (isTty : Bool) :
    (expose_local_services isTty []).remoteForwardArgs = [] ∧
    (expose_local_services isTty []).spawnedSsh = [] ∧
    (expose_local_services isTty []).advisory = isTty ∧
    (expose_local_services isTty []).forwardMsgCount = 0 := by
  cases isTty <;> decide

/-! Lemmas about the connect / main models. -/

theorem bridgeStep_noDep (cfg : ConnectCfg) : NoDepForward (bridgeStep cfg).1 := by
  obtain ⟨m, p, ia, fa, io, fo, w, ep, t⟩ := cfg
  cases m <;> cases p <;> simp only [bridgeStep, NoDepForward] <;>
    first
      | decide
      | (split_ifs <;> decide)

theorem connectPre_noDep (cfg : ConnectCfg) : NoDepForward (connectPre cfg) := by
  intro e he
  rcases List.mem_cons.1 he with h | h
  · subst h; rfl
  · rcases List.mem_cons.1 h with h2 | h2
    · subst h2; rfl
    · exact bridgeStep_noDep cfg e h2

/-! Claim C4: tunnel readiness is observed before any dependent forwarding. -/

/-- C4: in every `connect` trace, either a successful `ssh.wait()` splits the
trace with no dependent forwarding (reverse-forward or SOCKS local-forward
spawn) before it, or no dependent forwarding occurs at all; and when
`ssh.wait()` raises its timeout, no reverse-forward spawn ever occurs. -/
theorem connect_wait_precedes_dependent_forwarding (cfg : ConnectCfg) :
    ((∃ l1 l2, (connectModel cfg).1 = l1 ++ Event.sshWait true :: l2 ∧
        NoDepForward l1) ∨ NoDepForward (connectModel cfg).1) ∧
    (cfg.sshWaitOk = false →
      ∀ args, Event.spawnReverseForward args ∉ (connectModel cfg).1) := by
  constructor
  · cases hb : (bridgeStep cfg).2 with
    | error e =>
      right
      simp only [connectModel, hb]
      exact connectPre_noDep cfg
    | ok u =>
      by_cases hw : cfg.sshWaitOk
      · left
        refine ⟨connectPre cfg, connectPostWait cfg, ?_, connectPre_noDep cfg⟩
        simp only [connectModel, hb, if_pos hw]
      · right
        simp only [connectModel, hb, if_neg hw]
        intro e he
        rcases List.mem_append.1 he with h | h
        · exact connectPre_noDep cfg e h
        · rw [List.mem_singleton] at h; subst h; rfl
  · intro hw args hmem
    cases hb : (bridgeStep cfg).2 with
    | error e =>
      simp only [connectModel, hb] at hmem
      have := connectPre_noDep cfg _ hmem
      simp [isDepForward] at this
    | ok u =>
      have hw2 : ¬ (cfg.sshWaitOk = true) := by simp [hw]
      simp only [connectModel, hb, if_neg hw2] at hmem
      rcases List.mem_append.1 hmem with h | h
      · have := connectPre_noDep cfg _ h
        simp [isDepForward] at this
      · rw [List.mem_singleton] at h
        exact Event.noConfusion h

/-- C4 witness: the timeout half of the theorem at a concrete configuration
whose `ssh.wait()` times out. -/
theorem connect_wait_precedes_dependent_forwarding_witness :
    cfgConnTimeout.sshWaitOk = false ∧
    Event.spawnReverseForward [] ∉ (connectModel cfgConnTimeout).1 :=
  ⟨rfl, (connect_wait_precedes_dependent_forwarding cfgConnTimeout).2 rfl []⟩

/-! Claim C5: docker-bridge IPv4 discovery on Linux for the container
method. -/

/-- C5: for the container method on Linux, `connect` exits fatally when
neither `ip` nor `ifconfig` is installed, and when neither output yields an
IPv4 address; when `ip` is installed only its output is consulted, and
`ifconfig` is consulted exactly when `ip` is missing and `ifconfig` is
installed. -/
theorem connect_linux_bridge_discovery (cfg : ConnectCfg)
    (hm : cfg.method = Method.container)
    (hp : cfg.platform = Platform.linux) :
    ((cfg.ipAvail = false ∧ cfg.ifconfigAvail = false) →
      (connectModel cfg).2 = Except.error (Err.systemExit ipToolsMissingMsg)) ∧
    ((findIPv4 cfg.ipAddrOut = [] ∧ findIPv4 cfg.ifconfigOut = []) →
      ∃ msg, (connectModel cfg).2 = Except.error (Err.systemExit msg)) ∧
    (cfg.ipAvail = true → Event.runIpAddr ∈ (connectModel cfg).1 ∧
      Event.runIfconfig ∉ (connectModel cfg).1) ∧
    ((cfg.ipAvail = false ∧ cfg.ifconfigAvail = true) →
      Event.runIfconfig ∈ (connectModel cfg).1) := by
  obtain ⟨m, p, ia, fa, io, fo, w, ep, t⟩ := cfg
  subst hm
  subst hp
  refine ⟨?_, ?_, ?_, ?_⟩
  · rintro ⟨hia, hfa⟩
    subst hia
    subst hfa
    rfl
  · rintro ⟨h1, h2⟩
    cases hia : ia with
    | true =>
      exact ⟨noDockerInterfaceMsg,
        by simp [connectModel, bridgeStep, h1]⟩
    | false =>
      cases hfa : fa with
      | true =>
        exact ⟨noDockerInterfaceMsg,
          by simp [connectModel, bridgeStep, h2]⟩
      | false => exact ⟨ipToolsMissingMsg, rfl⟩
  · intro hia
    subst hia
    by_cases he : findIPv4 io = [] <;> cases hw : w <;>
      simp [connectModel, bridgeStep, connectPre, connectPostWait,
        exposeEvents, he, hw]
  · rintro ⟨hia, hfa⟩
    subst hia
    subst hfa
    by_cases he : findIPv4 fo = [] <;> cases hw : w <;>
      simp [connectModel, bridgeStep, connectPre, connectPostWait,
        exposeEvents, he, hw]

/-- C5 witness: the no-tools case at a concrete configuration. -/
theorem connect_linux_bridge_discovery_witness :
    cfgConnNoTools.method = Method.container ∧
    cfgConnNoTools.platform = Platform.linux ∧
    cfgConnNoTools.ipAvail = false ∧ cfgConnNoTools.ifconfigAvail = false ∧
    (connectModel cfgConnNoTools).2 =
      Except.error (Err.systemExit ipToolsMissingMsg) :=
  ⟨rfl, rfl, rfl, rfl,
    (connect_linux_bridge_discovery cfgConnNoTools rfl rfl).1 ⟨rfl, rfl⟩⟩

/-! Fuel adequacy: the fuel arguments of the two structurally recursive
loops never change the computed value once they are large enough, so the
concrete bounds used in `findIPv4` and `envRetryLoop` are immaterial. -/

theorem matchIPv4_decomp (s m rest : Str) (h : matchIPv4 s = some (m, rest)) :
    s = m ++ rest ∧ m ≠ [] := by
  simp only [matchIPv4] at h
  by_cases h1 : (s.takeWhile Char.isDigit).isEmpty
  · rw [if_pos h1] at h; exact absurd h (by simp)
  · rw [if_neg h1] at h
    cases hd1 : s.dropWhile Char.isDigit with
    | nil => rw [hd1] at h; exact absurd h (by simp)
    | cons c1 s2 =>
      simp only [hd1] at h
      by_cases hc1 : c1 = '.'
      · rw [if_pos hc1] at h
        by_cases h2 : (s2.takeWhile Char.isDigit).isEmpty
        · rw [if_pos h2] at h; exact absurd h (by simp)
        · rw [if_neg h2] at h
          cases hd2 : s2.dropWhile Char.isDigit with
          | nil => rw [hd2] at h; exact absurd h (by simp)
          | cons c2 s3 =>
            simp only [hd2] at h
            by_cases hc2 : c2 = '.'
            · rw [if_pos hc2] at h
              by_cases h3 : (s3.takeWhile Char.isDigit).isEmpty
              · rw [if_pos h3] at h; exact absurd h (by simp)
              · rw [if_neg h3] at h
                cases hd3 : s3.dropWhile Char.isDigit with
                | nil => rw [hd3] at h; exact absurd h (by simp)
                | cons c3 s4 =>
                  simp only [hd3] at h
                  by_cases hc3 : c3 = '.'
                  · rw [if_pos hc3] at h
                    by_cases h4 : (s4.takeWhile Char.isDigit).isEmpty
                    · rw [if_pos h4] at h; exact absurd h (by simp)
                    · rw [if_neg h4] at h
                      simp only [Option.some.injEq, Prod.mk.injEq] at h
                      obtain ⟨hm, hr⟩ := h
                      subst hc1; subst hc2; subst hc3
                      subst hm; subst hr
                      constructor
                      · symm
                        simp only [List.append_assoc, List.cons_append]
                        rw [List.takeWhile_append_dropWhile, ← hd3,
                          List.takeWhile_append_dropWhile, ← hd2,
                          List.takeWhile_append_dropWhile, ← hd1,
                          List.takeWhile_append_dropWhile]
                      · simp
                  · rw [if_neg hc3] at h; exact absurd h (by simp)
            · rw [if_neg hc2] at h; exact absurd h (by simp)
      · rw [if_neg hc1] at h; exact absurd h (by simp)

theorem findIPv4Aux_fuel (f1 : Nat) :
    ∀ (f2 : Nat) (s : Str), s.length ≤ f1 → s.length ≤ f2 →
      findIPv4Aux f1 s = findIPv4Aux f2 s := by
  induction f1 with
  | zero =>
    intro f2 s h1 _
    have hnil : s = [] := List.eq_nil_of_length_eq_zero (Nat.le_zero.1 h1)
    subst hnil
    cases f2 <;> rfl
  | succ n ih =>
    intro f2 s h1 h2
    cases s with
    | nil => cases f2 <;> rfl
    | cons c s1 =>
      cases f2 with
      | zero => simp at h2
      | succ n2 =>
        simp only [findIPv4Aux]
        cases hm : matchIPv4 (c :: s1) with
        | none =>
          exact ih n2 s1 (by simpa [Nat.succ_le_succ_iff] using h1)
            (by simpa [Nat.succ_le_succ_iff] using h2)
        | some pr =>
          obtain ⟨m, rest⟩ := pr
          obtain ⟨hdec, hne⟩ := matchIPv4_decomp _ _ _ hm
          have hmlen : 0 < m.length := List.length_pos.2 hne
          have htot : (c :: s1).length = m.length + rest.length := by
            rw [hdec, List.length_append]
          have hr1 : rest.length ≤ n := by
            simp only [List.length_cons] at htot h1
            omega
          have hr2 : rest.length ≤ n2 := by
            simp only [List.length_cons] at htot h2
            omega
          dsimp only
          rw [ih n2 rest hr1 hr2]

theorem findIPv4Aux_adequate (fuel : Nat) (s : Str) (h : s.length ≤ fuel) :
    findIPv4Aux fuel s = findIPv4 s :=
  findIPv4Aux_fuel fuel s.length s h le_rfl

theorem envRetryLoopAux_fuel (attempt : Nat → Option (List (Str × Str)))
    (dur : Nat → Nat) (f1 : Nat) :
    ∀ (f2 i t : Nat), 10000 ≤ t + 250 * f1 → 10000 ≤ t + 250 * f2 →
      envRetryLoopAux attempt dur f1 i t = envRetryLoopAux attempt dur f2 i t := by
  induction f1 with
  | zero =>
    intro f2 i t h1 _
    have ht : ¬ t < 10000 := by omega
    cases f2 with
    | zero => rfl
    | succ n2 => simp only [envRetryLoopAux, if_neg ht]
  | succ n ih =>
    intro f2 i t h1 h2
    cases f2 with
    | zero =>
      have ht : ¬ t < 10000 := by omega
      simp only [envRetryLoopAux, if_neg ht]
    | succ n2 =>
      simp only [envRetryLoopAux]
      by_cases ht : t < 10000
      · rw [if_pos ht, if_pos ht]
        cases hm : attempt i with
        | some e => rfl
        | none =>
          exact ih n2 (i + 1) (t + dur i + 250) (by omega) (by omega)
      · rw [if_neg ht, if_neg ht]

theorem envRetryLoop_adequate (attempt : Nat → Option (List (Str × Str)))
    (dur : Nat → Nat) (fuel : Nat) (h : 10000 ≤ 250 * fuel) :
    envRetryLoop attempt dur = envRetryLoopAux attempt dur fuel 0 0 :=
  envRetryLoopAux_fuel attempt dur 41 fuel 0 0 (by omega) (by omega)

/-! Claim C2: behaviour of `start_proxy` when the remote-environment retry
loop never succeeds. -/

theorem envRetryLoopAux_none (attempt : Nat → Option (List (Str × Str)))
    (dur : Nat → Nat) (hall : ∀ i, attempt i = none) :
    ∀ (fuel i t : Nat), envRetryLoopAux attempt dur fuel i t = none := by
  intro fuel
  induction fuel with
  | zero => intro i t; rfl
  | succ n ih =>
    intro i t
    by_cases ht : t < 10000
    · simp only [envRetryLoopAux, if_pos ht, hall i]
      exact ih _ _
    · simp only [envRetryLoopAux, if_neg ht]

/-- C2 counterexample: a session whose env-dump attempts all raise
`CalledProcessError` makes `start_proxy` end in `UnboundLocalError` (the
local `env` is read by the `return` statement without ever being bound),
not in a normal return with partial or empty environment data. -/
theorem start_proxy_env_failure_not_ok :
    cfgMainEnvFail.envAttempt = (fun _ => none) ∧
    (start_proxyModel cfgMainEnvFail).2 = Except.error Err.unboundLocalErr :=
  ⟨rfl, rfl⟩

/-- C2 amended: when `connect` succeeds but no retrieval attempt ever
succeeds, `start_proxy` raises `UnboundLocalError` when its `return`
statement reads the never-assigned local `env` — it does not return
normally. -/
theorem start_proxy_env_failure_unbound_local (cfg : MainCfg)
    (hconn : (connectModel cfg.connect).2 = Except.ok ())
    (hall : ∀ i, cfg.envAttempt i = none) :
    (start_proxyModel cfg).2 = Except.error Err.unboundLocalErr := by
  simp only [start_proxyModel, hconn, envRetryLoop,
    envRetryLoopAux_none _ _ hall]

/-- C2 witness: the amended theorem at the concrete always-failing
configuration. -/
theorem start_proxy_env_failure_unbound_local_witness :
    (connectModel cfgMainEnvFail.connect).2 = Except.ok () ∧
    cfgMainEnvFail.envAttempt 0 = none ∧
    (start_proxyModel cfgMainEnvFail).2 = Except.error Err.unboundLocalErr :=
  ⟨rfl, rfl,
    start_proxy_env_failure_unbound_local cfgMainEnvFail rfl (fun _ => rfl)⟩

/-! Claim C7: sub-1024 exposed ports on OpenShift abort `main` before any
session process is spawned. -/

/-- C7: when some exposed remote port is below 1024 and the cluster flavor
is `oc`, `main` aborts with the OpenShift ports error, and its trace up to
that point holds no session-process spawn. -/
theorem main_rejects_low_ports_on_openshift (cfg : MainCfg)
    (hports : ∃ pr ∈ cfg.connect.exposePorts, pr.2 < 1024)
    (hoc : cfg.kubectlCmd = KubeCmd.oc) :
    (mainModel cfg).2 = Except.error (Err.systemExit openshiftPortsMsg) ∧
    ∀ e ∈ (mainModel cfg).1, isSessionSpawn e = false := by
  have hany : ((cfg.connect.exposePorts.map Prod.snd).any
      fun p => decide (p < 1024)) = true := by
    rw [List.any_eq_true]
    obtain ⟨pr, hmem, hlt⟩ := hports
    exact ⟨pr.2, List.mem_map_of_mem _ hmem, by simpa using hlt⟩
  have hcond : (((cfg.connect.exposePorts.map Prod.snd).any
      fun p => decide (p < 1024)) = true ∧ cfg.kubectlCmd = KubeCmd.oc) :=
    ⟨hany, hoc⟩
  constructor
  · simp only [mainModel, if_pos hcond]
  · simp only [mainModel, if_pos hcond]
    intro e he
    simp at he
    subst he
    rfl

/-- C7 witness: the abort at a concrete OpenShift configuration exposing
remote port 80. -/
theorem main_rejects_low_ports_on_openshift_witness :
    ((8080, 80) ∈ cfgMainOcPorts.connect.exposePorts ∧ 80 < 1024) ∧
    cfgMainOcPorts.kubectlCmd = KubeCmd.oc ∧
    (mainModel cfgMainOcPorts).2 =
      Except.error (Err.systemExit openshiftPortsMsg) :=
  ⟨⟨by decide, by decide⟩, rfl,
    (main_rejects_low_ports_on_openshift cfgMainOcPorts
      ⟨(8080, 80), by decide, by decide⟩ rfl).1⟩

/-! Claim C10: vpn-tcp against a local VM with a plain `--deployment`
aborts `main` before connecting. -/

theorem checkIfInLocalVm_snd (cfg : MainCfg) :
    (checkIfInLocalVm cfg).2 = [] ∨
      (checkIfInLocalVm cfg).2 = [Event.runMinishiftIp] := by
  rw [checkIfInLocalVm]
  split_ifs <;> simp

/-- C10: when the context is detected as a local VM (minikube context, or
`oc` flavor with the stripped `minishift ip` output found in the server
address), the method is vpn-tcp and neither a new nor a swapped deployment
was requested (a plain existing `--deployment`), `main` aborts with a fatal
`SystemExit` and its trace holds no `connect` event. -/
theorem main_rejects_vpn_tcp_on_local_vm (cfg : MainCfg)
    (hvm : (checkIfInLocalVm cfg).1 = true)
    (hm : cfg.connect.method = Method.vpnTcp)
    (hn : cfg.newDeployment = none) (hs : cfg.swapDeployment = none)
    (_hd : cfg.deployment.isSome = true) :
    (∃ msg, (mainModel cfg).2 = Except.error (Err.systemExit msg)) ∧
    ∀ e ∈ (mainModel cfg).1, isConnectEvent e = false := by
  by_cases hc1 : (((cfg.connect.exposePorts.map Prod.snd).any
      fun p => decide (p < 1024)) = true ∧ cfg.kubectlCmd = KubeCmd.oc)
  · constructor
    · exact ⟨openshiftPortsMsg, by simp only [mainModel, if_pos hc1]⟩
    · simp only [mainModel, if_pos hc1]
      intro e he
      simp at he
      subst he
      rfl
  · have hc2 : ((checkIfInLocalVm cfg).1 = true ∧
        cfg.connect.method = Method.vpnTcp ∧
        cfg.newDeployment = none ∧ cfg.swapDeployment = none) :=
      ⟨hvm, hm, hn, hs⟩
    constructor
    · exact ⟨vpnLocalVmMsg, by simp only [mainModel, if_neg hc1, if_pos hc2]⟩
    · simp only [mainModel, if_neg hc1, if_pos hc2]
      intro e he
      rcases checkIfInLocalVm_snd cfg with h2 | h2 <;> rw [h2] at he <;>
        simp at he
      · rcases he with rfl | rfl <;> rfl
      · rcases he with rfl | rfl | rfl <;> rfl

/-- C10 witness: the abort at a concrete minikube-context vpn-tcp
configuration with a plain deployment. -/
theorem main_rejects_vpn_tcp_on_local_vm_witness :
    (checkIfInLocalVm cfgMainMinikube).1 = true ∧
    cfgMainMinikube.connect.method = Method.vpnTcp ∧
    cfgMainMinikube.newDeployment = none ∧
    cfgMainMinikube.swapDeployment = none ∧
    ∀ e ∈ (mainModel cfgMainMinikube).1, isConnectEvent e = false :=
  ⟨rfl, rfl, rfl, rfl,
    (main_rejects_vpn_tcp_on_local_vm cfgMainMinikube rfl rfl rfl rfl rfl).2⟩

end Telepresence
